import Mathlib

/-
Verification development for the project-board application (src/src/app.ts).

The observable registry (class ProjectState), the column filter
(ProjectList.configure) and the form boundary (validate, gatherUserInput,
the submit handler) are embedded as pure Lean functions.

Modelling conventions:
- JavaScript numbers are modelled by `JsNum := Option ℚ`, where `none`
  stands for NaN; every NaN comparison is false, and
  Number.prototype.toString never yields a whitespace-only string, so the
  "required" check of `validate` always passes on a number.
- The id produced by `Math.random().toString()` inside addProject is an
  explicit parameter of the embedded addProject: one string per call,
  drawn from the (unconstrained) random source.
- Listener callbacks are stored and iterated by the registry without ever
  being inspected, so they are modelled by opaque identity tokens
  (`Listener := Nat`).  A mutating operation returns, next to the new
  state, its notification trace: the list of (listener, delivered
  snapshot) calls in the order they are made.
-/

set_option autoImplicit false

/-- Status enumeration from app.ts: `enum ProjectStatus { Active, Finished }`. -/
inductive ProjectStatus where
  | Active
  | Finished
deriving DecidableEq

/-- JavaScript number: `none` is NaN, `some q` a (rational-valued) number. -/
abbrev JsNum := Option ℚ

/-- Record from app.ts: `class Project { id; title; description; people; status }`. -/
structure Project where
  id : String
  title : String
  description : String
  people : JsNum
  status : ProjectStatus
deriving DecidableEq

/-- Listeners are stored and called, never inspected: opaque tokens. -/
abbrev Listener := Nat

/-- State of the singleton registry `ProjectState`:
`private projects : Project[] = []; private listeners: Listener[] = []`. -/
structure ProjectState where
  projects : List Project
  listeners : List Listener
deriving DecidableEq

/-- The fresh registry produced by the private constructor: both arrays empty. -/
def initialState : ProjectState := { projects := [], listeners := [] }

/-- One notification call: which listener ran, and the snapshot it received. -/
abbrev NotifyCall := Listener × List Project

/-- Embeds `ProjectState.updateListeners`: iterate the listener array in
order, handing each listener a copy (`this.projects.slice()`) of the full
project array. -/
def updateListeners (s : ProjectState) : List NotifyCall :=
  s.listeners.map (fun listenerFn => (listenerFn, s.projects))

/-- Embeds `ProjectState.addListener`: `this.listeners.push(listenerFn)`. -/
def addListener (listenerFn : Listener) (s : ProjectState) : ProjectState :=
  { s with listeners := s.listeners ++ [listenerFn] }

/-- Embeds `ProjectState.addProject`: build a new Project with the id the
random source yields for this call (`newId`), the given fields and status
Active; push it at the end; notify.  Returns the new state and the
notification trace of the call. -/
def addProject (newId title description : String) (numOfPeople : JsNum)
    (s : ProjectState) : ProjectState × List NotifyCall :=
  let newProject : Project :=
    { id := newId, title := title, description := description,
      people := numOfPeople, status := ProjectStatus.Active }
  let s2 : ProjectState := { s with projects := s.projects ++ [newProject] }
  (s2, updateListeners s2)

/-- Functional rendering of the body of `ProjectState.moveProject`:
`this.projects.find(prj => prj.id === projectId)` locates the FIRST
project with the given id; if it exists and its status differs from the
new one, that one project gets the new status (in-place mutation in the
source).  `some` is returned exactly when the guarded mutation happens. -/
def updateFirst (projectId : String) (newStatus : ProjectStatus) :
    List Project → Option (List Project)
  | [] => none
  | prj :: rest =>
    if prj.id = projectId then
      if prj.status ≠ newStatus then
        some ({ prj with status := newStatus } :: rest)
      else
        none
    else
      (updateFirst projectId newStatus rest).map (fun rest2 => prj :: rest2)

/-- Embeds `ProjectState.moveProject`: when the guarded mutation happens,
update the array and notify; otherwise do nothing at all. -/
def moveProject (projectId : String) (newStatus : ProjectStatus)
    (s : ProjectState) : ProjectState × List NotifyCall :=
  match updateFirst projectId newStatus s.projects with
  | some ps =>
    let s2 : ProjectState := { s with projects := ps }
    (s2, updateListeners s2)
  | none => (s, [])

/-- Column kind of a `ProjectList`: the constructor argument
`type : 'active' | 'finished'`. -/
inductive ColType where
  | active
  | finished
deriving DecidableEq

/-- Embeds the filter inside `ProjectList.configure`: keep the projects
whose status matches the column. -/
def relevantProjects (type : ColType) (projects : List Project) : List Project :=
  projects.filter (fun pr =>
    match type with
    | ColType.active => decide (pr.status = ProjectStatus.Active)
    | ColType.finished => decide (pr.status = ProjectStatus.Finished))

/-- Embeds the status chosen by `ProjectList.drop`:
`this.type === 'active' ? ProjectStatus.Active : ProjectStatus.Finished`. -/
def statusOf : ColType → ProjectStatus
  | ColType.active => ProjectStatus.Active
  | ColType.finished => ProjectStatus.Finished

/-- Value carried by a `Validatable`: `value: string | number`. -/
inductive JsValue where
  | str (s : String)
  | num (v : JsNum)

/-- Embeds interface `Validatable` with its optional fields. -/
structure Validatable where
  value : JsValue
  required : Bool := false
  minLength : Option ℚ := none
  maxLength : Option ℚ := none
  min : Option ℚ := none
  max : Option ℚ := none

/-- Models the JavaScript builtin `String.prototype.trim`: drop leading
and trailing whitespace characters. -/
def jsTrim (s : String) : String :=
  ⟨((s.data.dropWhile Char.isWhitespace).reverse.dropWhile Char.isWhitespace).reverse⟩

/-- Result of `value.toString().trim().length !== 0`.  A string is checked
literally; every JavaScript number (NaN included) prints as a nonempty
token without surrounding whitespace, so a number always passes. -/
def toStringTrimNonempty : JsValue → Bool
  | JsValue.str s => decide ((jsTrim s).length ≠ 0)
  | JsValue.num _ => true

/-- Result of `value >= min` on a number: false for NaN. -/
def jsNumGe (v : JsNum) (m : ℚ) : Bool :=
  match v with
  | none => false
  | some q => decide (m ≤ q)

/-- Result of `value <= max` on a number: false for NaN. -/
def jsNumLe (v : JsNum) (m : ℚ) : Bool :=
  match v with
  | none => false
  | some q => decide (q ≤ m)

/-- Embeds function `validate` of app.ts, check by check and in the same
order: required, minLength (strings only), maxLength (strings only),
min (numbers only), max (numbers only). -/
def validate (validatableInput : Validatable) : Bool :=
  let isValid := true
  let isValid :=
    if validatableInput.required then
      isValid && toStringTrimNonempty validatableInput.value
    else isValid
  let isValid :=
    match validatableInput.minLength, validatableInput.value with
    | some m, JsValue.str s => isValid && decide (m ≤ (s.length : ℚ))
    | _, _ => isValid
  let isValid :=
    match validatableInput.maxLength, validatableInput.value with
    | some m, JsValue.str s => isValid && decide ((s.length : ℚ) ≤ m)
    | _, _ => isValid
  let isValid :=
    match validatableInput.min, validatableInput.value with
    | some m, JsValue.num v => isValid && jsNumGe v m
    | _, _ => isValid
  let isValid :=
    match validatableInput.max, validatableInput.value with
    | some m, JsValue.num v => isValid && jsNumLe v m
    | _, _ => isValid
  isValid

/-- Embeds `ProjectInput.gatherUserInput`.  The raw field strings are
trimmed; `peopleNum` is the value of the JavaScript coercion
`+this.peopleInputElem.value.trim()` (a platform primitive, so its result
is passed in; `none` is NaN).  Returns `none` exactly when the alert
branch is taken. -/
def gatherUserInput (titleRaw descriptionRaw : String) (peopleNum : JsNum) :
    Option (String × String × JsNum) :=
  let enteredTitle := jsTrim titleRaw
  let enteredDescription := jsTrim descriptionRaw
  let titleValidateable : Validatable :=
    { value := JsValue.str enteredTitle, required := true }
  let descriptionValidateable : Validatable :=
    { value := JsValue.str enteredDescription, required := true,
      minLength := some 5 }
  let peopleValidateable : Validatable :=
    { value := JsValue.num peopleNum, required := true,
      min := some 1, max := some 5 }
  if !validate titleValidateable || !validate descriptionValidateable
      || !validate peopleValidateable then
    none
  else
    some (enteredTitle, enteredDescription, peopleNum)

/-- Embeds the submit listener installed by `ProjectInput.configure`: on
submit, gather the user input; when it validates, call
`projectState.addProject(title, desc, people)` (with `newId` the string
the random source yields inside that call); otherwise do nothing to the
registry. -/
def submitForm (newId titleRaw descriptionRaw : String) (peopleNum : JsNum)
    (s : ProjectState) : ProjectState × List NotifyCall :=
  match gatherUserInput titleRaw descriptionRaw peopleNum with
  | some (title, desc, people) => addProject newId title desc people s
  | none => (s, [])

/-- One mutating registry call, with the id string the random source
yields when the call is an add. -/
inductive Op where
  | add (newId title description : String) (people : JsNum)
  | move (projectId : String) (newStatus : ProjectStatus)

/-- Runs one operation, dropping the notification trace. -/
def applyOp (s : ProjectState) : Op → ProjectState
  | Op.add newId title description people =>
      (addProject newId title description people s).1
  | Op.move projectId newStatus => (moveProject projectId newStatus s).1

/-- Runs a sequence of mutating registry calls. -/
def run (s : ProjectState) (ops : List Op) : ProjectState :=
  ops.foldl applyOp s

/-- Ids the random source hands to the add calls of a sequence, in order. -/
def addIds : List Op → List String
  | [] => []
  | Op.add newId _ _ _ :: rest => newId :: addIds rest
  | Op.move _ _ :: rest => addIds rest

/-- Arguments of one `addProject` call, the id drawn inside it included. -/
structure AddCall where
  id : String
  title : String
  description : String
  people : JsNum
deriving DecidableEq

/-- Project built by `addProject` from one call. -/
def AddCall.toProject (c : AddCall) : Project :=
  { id := c.id, title := c.title, description := c.description,
    people := c.people, status := ProjectStatus.Active }

/-- Runs a sequence of `addProject` calls (and nothing else). -/
def runAdds (s : ProjectState) (calls : List AddCall) : ProjectState :=
  calls.foldl (fun st c => (addProject c.id c.title c.description c.people st).1) s

/-! ### Helper lemmas -/

theorem mem_relevantProjects (c : ColType) (ps : List Project) (q : Project) :
    q ∈ relevantProjects c ps ↔ q ∈ ps ∧ q.status = statusOf c := by
  cases c <;> simp [relevantProjects, statusOf, List.mem_filter]

theorem updateFirst_eq_none (projectId : String) (newStatus : ProjectStatus)
    (ps : List Project) (h : ∀ p ∈ ps, p.id = projectId → p.status = newStatus) :
    updateFirst projectId newStatus ps = none := by
  induction ps with
  | nil => rfl
  | cons p rest ih =>
    simp only [updateFirst]
    by_cases hid : p.id = projectId
    · simp [hid, h p (by simp) hid]
    · simp [hid, ih (fun q hq => h q (by simp [hq]))]

theorem updateFirst_cons_eq (projectId : String) (newStatus : ProjectStatus)
    (prj : Project) (rest : List Project) (h : prj.id = projectId) :
    updateFirst projectId newStatus (prj :: rest) =
      if prj.status ≠ newStatus then
        some ({ prj with status := newStatus } :: rest)
      else none := by
  simp [updateFirst, h]

theorem updateFirst_cons_ne (projectId : String) (newStatus : ProjectStatus)
    (prj : Project) (rest : List Project) (h : prj.id ≠ projectId) :
    updateFirst projectId newStatus (prj :: rest) =
      (updateFirst projectId newStatus rest).map (fun rest2 => prj :: rest2) := by
  simp [updateFirst, h]

theorem updateFirst_found (projectId : String) (newStatus : ProjectStatus)
    (l₁ l₂ : List Project) (p : Project)
    (h₁ : ∀ q ∈ l₁, q.id ≠ projectId) (hp : p.id = projectId) :
    updateFirst projectId newStatus (l₁ ++ p :: l₂) =
      if p.status ≠ newStatus then
        some (l₁ ++ { p with status := newStatus } :: l₂)
      else none := by
  induction l₁ with
  | nil =>
    rw [List.nil_append, updateFirst_cons_eq projectId newStatus p l₂ hp]
    split <;> simp
  | cons q rest ih =>
    have hq : q.id ≠ projectId := h₁ q (by simp)
    rw [List.cons_append, updateFirst_cons_ne projectId newStatus q (rest ++ p :: l₂) hq,
        ih (fun r hr => h₁ r (by simp [hr]))]
    split <;> simp

theorem updateFirst_some_inv (projectId : String) (newStatus : ProjectStatus)
    (ps ps2 : List Project) (h : updateFirst projectId newStatus ps = some ps2) :
    ∃ l₁ p l₂, ps = l₁ ++ p :: l₂ ∧ (∀ q ∈ l₁, q.id ≠ projectId) ∧
      p.id = projectId ∧ p.status ≠ newStatus ∧
      ps2 = l₁ ++ { p with status := newStatus } :: l₂ := by
  induction ps generalizing ps2 with
  | nil => simp [updateFirst] at h
  | cons p rest ih =>
    simp only [updateFirst] at h
    by_cases hid : p.id = projectId
    · by_cases hst : p.status ≠ newStatus
      · rw [if_pos hid, if_pos hst] at h
        exact ⟨[], p, rest, by simp, by simp, hid, hst, by simpa using h.symm⟩
      · rw [if_pos hid, if_neg hst] at h
        exact absurd h (by simp)
    · rw [if_neg hid] at h
      rcases Option.map_eq_some'.mp h with ⟨rest2, hrest, hps2⟩
      rcases ih rest2 hrest with ⟨l₁, q, l₂, hsplit, hl₁, hq, hqst, hrest2⟩
      exact ⟨p :: l₁, q, l₂, by simp [hsplit], by
          intro r hr
          rcases List.mem_cons.mp hr with h1 | h1
          · simpa [h1] using hid
          · exact hl₁ r h1, hq, hqst, by simp [hps2.symm, hrest2]⟩

theorem updateFirst_map_id (projectId : String) (newStatus : ProjectStatus)
    (ps ps2 : List Project) (h : updateFirst projectId newStatus ps = some ps2) :
    ps2.map Project.id = ps.map Project.id := by
  rcases updateFirst_some_inv projectId newStatus ps ps2 h with
    ⟨l₁, p, l₂, hsplit, _, _, _, hps2⟩
  simp [hsplit, hps2]

theorem runAdds_projects (calls : List AddCall) (s : ProjectState) :
    (runAdds s calls).projects = s.projects ++ calls.map AddCall.toProject := by
  induction calls generalizing s with
  | nil => simp [runAdds]
  | cons c rest ih =>
    simp only [runAdds, List.foldl_cons, List.map_cons]
    rw [show (List.foldl _ _ rest : ProjectState) = runAdds _ rest from rfl, ih]
    simp [addProject, AddCall.toProject]

theorem run_map_id (ops : List Op) (s : ProjectState) :
    (run s ops).projects.map Project.id = s.projects.map Project.id ++ addIds ops := by
  induction ops generalizing s with
  | nil => simp [run, addIds]
  | cons op rest ih =>
    have hstep : (run s (op :: rest)) = run (applyOp s op) rest := rfl
    rw [hstep, ih]
    cases op with
    | add newId title description people =>
      simp [applyOp, addProject, addIds]
    | move projectId newStatus =>
      simp only [applyOp, addIds, moveProject]
      cases h : updateFirst projectId newStatus s.projects with
      | none => simp
      | some ps => simp [updateFirst_map_id projectId newStatus s.projects ps h]

theorem map_fst_pairs (xs : List Listener) (snap : List Project) :
    ((xs.map (fun listenerFn => (listenerFn, snap))).map Prod.fst) = xs := by
  induction xs with
  | nil => rfl
  | cons a rest ih => simp only [List.map_cons, ih]

/-! ### Claim theorems -/

/-- C6: addProject never fails for any arguments: the registry performs no
validation and accepts every input, including empty title or description
strings and zero, negative, non-integer or NaN people counts, always
appending a new project with status Active (and the given fields) to the
end of the sequence, leaving the listener list unchanged. -/
theorem addProject_never_fails (newId title description : String)
    (numOfPeople : JsNum) (s : ProjectState) :
    (addProject newId title description numOfPeople s).1.projects =
      s.projects ++
        [{ id := newId, title := title, description := description,
           people := numOfPeople, status := ProjectStatus.Active }] ∧
    (addProject newId title description numOfPeople s).1.listeners = s.listeners :=
  ⟨rfl, rfl⟩

/-- C3: moveProject with an id that no project carries, or whose project
already has the requested status, is a silent no-op: the state (project
sequence and listeners) is unchanged and the notification trace is empty.
The embedded moveProject is a total function, so no error can be raised,
and both cases return the identical observable result, so the caller
cannot distinguish them. -/
theorem moveProject_silent_noop (projectId : String) (newStatus : ProjectStatus)
    (s : ProjectState)
    (h : ∀ p ∈ s.projects, p.id = projectId → p.status = newStatus) :
    moveProject projectId newStatus s = (s, []) := by
  simp [moveProject, updateFirst_eq_none projectId newStatus s.projects h]

/-- Witness for C3: a concrete absent id and a concrete same-status move
both return the untouched state with an empty trace. -/
theorem moveProject_silent_noop_witness :
    moveProject "absent" ProjectStatus.Finished
        { projects := [{ id := "a", title := "t", description := "d",
                         people := some 3, status := ProjectStatus.Active }],
          listeners := [0] } =
      ({ projects := [{ id := "a", title := "t", description := "d",
                        people := some 3, status := ProjectStatus.Active }],
         listeners := [0] }, []) ∧
    moveProject "a" ProjectStatus.Active
        { projects := [{ id := "a", title := "t", description := "d",
                         people := some 3, status := ProjectStatus.Active }],
          listeners := [0] } =
      ({ projects := [{ id := "a", title := "t", description := "d",
                        people := some 3, status := ProjectStatus.Active }],
         listeners := [0] }, []) :=
  ⟨moveProject_silent_noop "absent" ProjectStatus.Finished _ (by decide),
   moveProject_silent_noop "a" ProjectStatus.Active _ (by decide)⟩

/-- C5: a successful moveProject on an existing project (the guarded
mutation fires, i.e. updateFirst returns some) changes only the status
field of the located project: its id, title, description and people are
copied over unchanged, every project before and after it is unchanged,
and the length and order of the sequence are preserved; the listener list
also stays the same. -/
theorem moveProject_frame (projectId : String) (newStatus : ProjectStatus)
    (s : ProjectState) (ps : List Project)
    (h : updateFirst projectId newStatus s.projects = some ps) :
    (moveProject projectId newStatus s).1.projects = ps ∧
    (moveProject projectId newStatus s).1.listeners = s.listeners ∧
    ∃ l₁ p l₂, s.projects = l₁ ++ p :: l₂ ∧ p.id = projectId ∧
      p.status ≠ newStatus ∧
      ps = l₁ ++ { id := p.id, title := p.title, description := p.description,
                   people := p.people, status := newStatus } :: l₂ ∧
      ps.length = s.projects.length := by
  refine ⟨by simp [moveProject, h], by simp [moveProject, h], ?_⟩
  rcases updateFirst_some_inv projectId newStatus s.projects ps h with
    ⟨l₁, p, l₂, hsplit, _, hid, hst, hps⟩
  exact ⟨l₁, p, l₂, hsplit, hid, hst, hps, by simp [hsplit, hps]⟩

/-- Witness for C5: moving the middle project of a three-project registry
to Finished rewrites only its status and keeps its neighbours intact. -/
theorem moveProject_frame_witness :
    (moveProject "b" ProjectStatus.Finished
        { projects :=
            [{ id := "a", title := "ta", description := "da",
               people := some 1, status := ProjectStatus.Active },
             { id := "b", title := "tb", description := "db",
               people := some 2, status := ProjectStatus.Active },
             { id := "c", title := "tc", description := "dc",
               people := some 3, status := ProjectStatus.Active }],
          listeners := [4] }).1.projects =
      [{ id := "a", title := "ta", description := "da",
         people := some 1, status := ProjectStatus.Active },
       { id := "b", title := "tb", description := "db",
         people := some 2, status := ProjectStatus.Finished },
       { id := "c", title := "tc", description := "dc",
         people := some 3, status := ProjectStatus.Active }] :=
  (moveProject_frame "b" ProjectStatus.Finished _ _ (by decide)).1

/-- C10: moveProject mutates at most the first project carrying the
matching id.  Given a sequence l1 ++ p :: l2 where no project of l1 has
the id and p does, the outcome is decided by p alone: if p already has
the requested status the call is a no-op, and otherwise only p is
rewritten, while l2 — later duplicates of the id included — is returned
verbatim. -/
theorem moveProject_first_match_only (s : ProjectState) (l₁ l₂ : List Project)
    (p : Project) (projectId : String) (newStatus : ProjectStatus)
    (hs : s.projects = l₁ ++ p :: l₂) (h₁ : ∀ q ∈ l₁, q.id ≠ projectId)
    (hp : p.id = projectId) :
    (p.status = newStatus → moveProject projectId newStatus s = (s, [])) ∧
    (p.status ≠ newStatus →
      (moveProject projectId newStatus s).1.projects =
        l₁ ++ { id := p.id, title := p.title, description := p.description,
                people := p.people, status := newStatus } :: l₂) := by
  have hu := updateFirst_found projectId newStatus l₁ l₂ p h₁ hp
  constructor
  · intro hsame
    rw [if_neg (by simpa using hsame)] at hu
    simp [moveProject, hs, hu]
  · intro hdiff
    rw [if_pos hdiff] at hu
    simp [moveProject, hs, hu]

/-- Witness for C10: with two projects sharing id x, moving x to Finished
updates only the first, leaving the later duplicate Active; and when the
first already has the requested status, the call is a no-op even though
the later duplicate differs. -/
theorem moveProject_first_match_only_witness :
    (moveProject "x" ProjectStatus.Finished
        { projects :=
            [{ id := "x", title := "t1", description := "d1",
               people := some 1, status := ProjectStatus.Active },
             { id := "x", title := "t2", description := "d2",
               people := some 2, status := ProjectStatus.Active }],
          listeners := [] }).1.projects =
      [{ id := "x", title := "t1", description := "d1",
         people := some 1, status := ProjectStatus.Finished },
       { id := "x", title := "t2", description := "d2",
         people := some 2, status := ProjectStatus.Active }] ∧
    moveProject "x" ProjectStatus.Active
        { projects :=
            [{ id := "x", title := "t1", description := "d1",
               people := some 1, status := ProjectStatus.Active },
             { id := "x", title := "t2", description := "d2",
               people := some 2, status := ProjectStatus.Finished }],
          listeners := [] } =
      ({ projects :=
           [{ id := "x", title := "t1", description := "d1",
              people := some 1, status := ProjectStatus.Active },
            { id := "x", title := "t2", description := "d2",
              people := some 2, status := ProjectStatus.Finished }],
         listeners := [] }, []) :=
  ⟨((moveProject_first_match_only _ []
        [{ id := "x", title := "t2", description := "d2",
           people := some 2, status := ProjectStatus.Active }]
        { id := "x", title := "t1", description := "d1",
          people := some 1, status := ProjectStatus.Active }
        "x" ProjectStatus.Finished rfl (by simp) rfl).2 (by decide)).trans
      (by simp),
   (moveProject_first_match_only _ []
        [{ id := "x", title := "t2", description := "d2",
           people := some 2, status := ProjectStatus.Finished }]
        { id := "x", title := "t1", description := "d1",
          people := some 1, status := ProjectStatus.Active }
        "x" ProjectStatus.Active rfl (by simp) rfl).1 rfl⟩

/-- C7: on every state-changing registry operation — every addProject, and
every moveProject whose guarded mutation fires — the notification trace
is exactly the listener list mapped over the full post-mutation snapshot:
each subscribed callback occurs exactly once, in subscription order, and
every call carries the whole project sequence.  In the sequential model
the whole trace is produced before the operation returns. -/
theorem notify_all_listeners_in_order :
    (∀ (newId title description : String) (numOfPeople : JsNum) (s : ProjectState),
      (addProject newId title description numOfPeople s).2 =
        s.listeners.map
          (fun l => (l, (addProject newId title description numOfPeople s).1.projects))) ∧
    (∀ (projectId : String) (newStatus : ProjectStatus) (s : ProjectState)
        (ps : List Project),
      updateFirst projectId newStatus s.projects = some ps →
      (moveProject projectId newStatus s).2 = s.listeners.map (fun l => (l, ps))) := by
  constructor
  · intro newId title description numOfPeople s
    rfl
  · intro projectId newStatus s ps h
    simp [moveProject, h, updateListeners]

/-- Witness for C7: two subscribers receive, in order, the one-project
snapshot after a concrete add, and one subscriber receives the updated
snapshot after a concrete successful move. -/
theorem notify_all_listeners_in_order_witness :
    (addProject "i" "t" "d" (some 1)
        { projects := [], listeners := [5, 7] }).2 =
      [(5, [{ id := "i", title := "t", description := "d",
              people := some 1, status := ProjectStatus.Active }]),
       (7, [{ id := "i", title := "t", description := "d",
              people := some 1, status := ProjectStatus.Active }])] ∧
    (moveProject "a" ProjectStatus.Finished
        { projects := [{ id := "a", title := "t", description := "d",
                         people := some 2, status := ProjectStatus.Active }],
          listeners := [9] }).2 =
      [(9, [{ id := "a", title := "t", description := "d",
              people := some 2, status := ProjectStatus.Finished }])] :=
  ⟨(notify_all_listeners_in_order.1 "i" "t" "d" (some 1)
      { projects := [], listeners := [5, 7] }).trans (by simp [addProject, updateListeners]),
   notify_all_listeners_in_order.2 "a" ProjectStatus.Finished
      { projects := [{ id := "a", title := "t", description := "d",
                       people := some 2, status := ProjectStatus.Active }],
        listeners := [9] }
      [{ id := "a", title := "t", description := "d",
         people := some 2, status := ProjectStatus.Finished }] (by decide)⟩

/-- C8: the subscriber list does not deduplicate callbacks: after
subscribing the same callback twice, every subsequent notification — an
add, or a successful move — invokes that callback exactly two more times
than the previously subscribed copies. -/
theorem subscribe_twice_invoked_twice :
    (∀ (l : Listener) (s : ProjectState) (newId title description : String)
        (numOfPeople : JsNum),
      ((addProject newId title description numOfPeople
          (addListener l (addListener l s))).2.map Prod.fst).count l =
        s.listeners.count l + 2) ∧
    (∀ (l : Listener) (s : ProjectState) (projectId : String)
        (newStatus : ProjectStatus) (ps : List Project),
      updateFirst projectId newStatus s.projects = some ps →
      ((moveProject projectId newStatus
          (addListener l (addListener l s))).2.map Prod.fst).count l =
        s.listeners.count l + 2) := by
  constructor
  · intro l s newId title description numOfPeople
    simp only [addProject, addListener, updateListeners]
    rw [map_fst_pairs]
    simp [List.count_append]
  · intro l s projectId newStatus ps h
    simp only [moveProject, addListener, updateListeners, h]
    rw [map_fst_pairs]
    simp [List.count_append]

/-- Witness for C8: subscribing listener 3 twice on a registry that already
holds one copy of it yields three invocations of 3 on the next add, and
likewise on a successful move. -/
theorem subscribe_twice_invoked_twice_witness :
    ((addProject "i" "t" "d" (some 1)
        (addListener 3 (addListener 3
          { projects := [], listeners := [3] }))).2.map Prod.fst).count 3 = 3 ∧
    ((moveProject "a" ProjectStatus.Finished
        (addListener 3 (addListener 3
          { projects := [{ id := "a", title := "t", description := "d",
                           people := some 1, status := ProjectStatus.Active }],
            listeners := [3] }))).2.map Prod.fst).count 3 = 3 :=
  ⟨subscribe_twice_invoked_twice.1 3 { projects := [], listeners := [3] } "i" "t" "d" (some 1),
   subscribe_twice_invoked_twice.2 3
      { projects := [{ id := "a", title := "t", description := "d",
                       people := some 1, status := ProjectStatus.Active }],
        listeners := [3] }
      "a" ProjectStatus.Finished
      [{ id := "a", title := "t", description := "d",
         people := some 1, status := ProjectStatus.Finished }] (by decide)⟩

/-- Counterexample to C1 as stated: the id of a new project is whatever
string `Math.random().toString()` happens to yield, and nothing in
addProject prevents the random source from repeating a value; when the
two draws coincide, the Active view after two adds holds two entries
whose ids are NOT distinct. -/
theorem activeView_distinct_ids_fails_on_repeated_draw :
    ¬ ((relevantProjects ColType.active
        (runAdds initialState
          [{ id := "0.5", title := "t1", description := "d1", people := some 1 },
           { id := "0.5", title := "t2", description := "d2", people := some 2 }]).projects).map
          Project.id).Nodup := by
  decide

/-- C1 (amended): provided the id strings drawn by the random source for
the N addProject calls are pairwise distinct, the Active view of the
resulting registry is exactly the list of the N requested projects in
call order — each entry carries the title, description and people count
of the corresponding call and status Active — with N entries and pairwise
distinct ids. -/
theorem activeView_after_adds (calls : List AddCall)
    (h : (calls.map AddCall.id).Nodup) :
    relevantProjects ColType.active (runAdds initialState calls).projects =
      calls.map AddCall.toProject ∧
    (relevantProjects ColType.active (runAdds initialState calls).projects).length =
      calls.length ∧
    ((relevantProjects ColType.active (runAdds initialState calls).projects).map
      Project.id).Nodup := by
  have hproj : (runAdds initialState calls).projects = calls.map AddCall.toProject := by
    simpa [initialState] using runAdds_projects calls initialState
  have hfilter :
      relevantProjects ColType.active (calls.map AddCall.toProject) =
        calls.map AddCall.toProject := by
    apply List.filter_eq_self.mpr
    intro a ha
    rcases List.mem_map.mp ha with ⟨c, _, rfl⟩
    simp [AddCall.toProject]
  have hids : (calls.map AddCall.toProject).map Project.id = calls.map AddCall.id := by
    simp only [List.map_map]
    exact List.map_congr_left (fun c _ => rfl)
  refine ⟨by rw [hproj, hfilter], by rw [hproj, hfilter]; simp, ?_⟩
  rw [hproj, hfilter, hids]
  exact h

/-- Witness for C1 (amended): two adds with distinct drawn ids produce an
Active view of exactly those two projects, in order, with distinct ids. -/
theorem activeView_after_adds_witness :
    relevantProjects ColType.active
        (runAdds initialState
          [{ id := "0.1", title := "t1", description := "d1", people := some 1 },
           { id := "0.2", title := "t2", description := "d2", people := some 2 }]).projects =
      [{ id := "0.1", title := "t1", description := "d1",
         people := some 1, status := ProjectStatus.Active },
       { id := "0.2", title := "t2", description := "d2",
         people := some 2, status := ProjectStatus.Active }] :=
  (activeView_after_adds
    [{ id := "0.1", title := "t1", description := "d1", people := some 1 },
     { id := "0.2", title := "t2", description := "d2", people := some 2 }]
    (by decide)).1

/-- Counterexample to C4 as stated: with a repeated draw of the random
source, a reachable state (two adds around a move) holds two projects
sharing one id, so the uniqueness invariant fails on the code as written. -/
theorem registry_ids_can_collide :
    ¬ ((run initialState
        [Op.add "0.42" "t1" "d1" (some 1),
         Op.move "0.42" ProjectStatus.Finished,
         Op.add "0.42" "t2" "d2" (some 2)]).projects.map Project.id).Nodup := by
  decide

/-- C4 (amended): provided the id strings drawn by the random source for
the add calls of the run are pairwise distinct, every reachable state has
pairwise distinct project ids; indeed the ids of the state are exactly
the drawn ids in draw order (moveProject never touches an id), so an id
is never reused. -/
theorem registry_ids_unique (ops : List Op) (h : (addIds ops).Nodup) :
    (run initialState ops).projects.map Project.id = addIds ops ∧
    ((run initialState ops).projects.map Project.id).Nodup := by
  have hrun := run_map_id ops initialState
  simp only [initialState, List.nil_append] at hrun
  exact ⟨hrun, hrun ▸ h⟩

/-- Witness for C4 (amended): a concrete run of two adds with distinct
draws and one move keeps both ids, distinct. -/
theorem registry_ids_unique_witness :
    ((run initialState
        [Op.add "0.1" "t1" "d1" (some 1),
         Op.move "0.1" ProjectStatus.Finished,
         Op.add "0.2" "t2" "d2" (some 2)]).projects.map Project.id).Nodup :=
  (registry_ids_unique
    [Op.add "0.1" "t1" "d1" (some 1),
     Op.move "0.1" ProjectStatus.Finished,
     Op.add "0.2" "t2" "d2" (some 2)] (by decide)).2

/-- C2: given the registry uniqueness invariant (pairwise distinct
project ids, the hypothesis hnd) and a project p with the requested id
whose status differs from the new one, moveProject fires exactly one
notification round — the trace is the listener list, each listener once
and in order, all with the full new snapshot — the snapshot holds that
project with the new status and otherwise unchanged fields, the project
id now appears in the filtered view of the new status, and no longer in
the filtered view of its previous status. -/
theorem moveProject_changes_status (s : ProjectState) (p : Project)
    (projectId : String) (newStatus : ProjectStatus)
    (hnd : (s.projects.map Project.id).Nodup)
    (hmem : p ∈ s.projects) (hid : p.id = projectId)
    (hst : p.status ≠ newStatus) :
    (moveProject projectId newStatus s).2 =
      s.listeners.map (fun l => (l, (moveProject projectId newStatus s).1.projects)) ∧
    (∃ q ∈ (moveProject projectId newStatus s).1.projects,
       q.id = projectId ∧ q.status = newStatus ∧ q.title = p.title ∧
       q.description = p.description ∧ q.people = p.people) ∧
    (∀ c : ColType, statusOf c = newStatus →
       ∃ q ∈ relevantProjects c (moveProject projectId newStatus s).1.projects,
         q.id = projectId) ∧
    (∀ c : ColType, statusOf c = p.status →
       ∀ q ∈ relevantProjects c (moveProject projectId newStatus s).1.projects,
         q.id ≠ projectId) := by
  rcases List.append_of_mem hmem with ⟨l₁, l₂, hsplit⟩
  have hnotmem : ¬ p.id ∈ (l₁.map Project.id ++ l₂.map Project.id) := by
    rw [hsplit] at hnd
    simp only [List.map_append, List.map_cons] at hnd
    exact (List.nodup_cons.mp (List.nodup_middle.mp hnd)).1
  have hl₁ : ∀ q ∈ l₁, q.id ≠ projectId := by
    intro q hq heq
    refine hnotmem (List.mem_append_left _ ?_)
    rw [hid, ← heq]
    exact List.mem_map_of_mem Project.id hq
  have hl₂ : ∀ q ∈ l₂, q.id ≠ projectId := by
    intro q hq heq
    refine hnotmem (List.mem_append_right _ ?_)
    rw [hid, ← heq]
    exact List.mem_map_of_mem Project.id hq
  have hup : updateFirst projectId newStatus s.projects =
      some (l₁ ++ { p with status := newStatus } :: l₂) := by
    rw [hsplit, updateFirst_found projectId newStatus l₁ l₂ p hl₁ hid, if_pos hst]
  have hproj : (moveProject projectId newStatus s).1.projects =
      l₁ ++ { p with status := newStatus } :: l₂ := by
    simp [moveProject, hup]
  have htrace : (moveProject projectId newStatus s).2 =
      s.listeners.map (fun l => (l, l₁ ++ { p with status := newStatus } :: l₂)) := by
    simp [moveProject, hup, updateListeners]
  refine ⟨by rw [htrace, hproj], ?_, ?_, ?_⟩
  · refine ⟨{ p with status := newStatus }, ?_, hid, rfl, rfl, rfl, rfl⟩
    rw [hproj]
    simp
  · intro c hc
    refine ⟨{ p with status := newStatus }, ?_, hid⟩
    rw [mem_relevantProjects, hproj, hc]
    simp
  · intro c hc q hq heq
    rw [mem_relevantProjects, hproj, hc] at hq
    rcases hq with ⟨hqmem, hqst⟩
    rcases List.mem_append.mp hqmem with h1 | h1
    · exact hl₁ q h1 heq
    · rcases List.mem_cons.mp h1 with h2 | h2
      · apply hst
        rw [← hqst, h2]
      · exact hl₂ q h2 heq

/-- Witness for C2: moving project b of a two-project registry to
Finished puts id b into the finished view and removes it from the active
view. -/
theorem moveProject_changes_status_witness :
    (∃ q ∈ relevantProjects ColType.finished
        (moveProject "b" ProjectStatus.Finished
          { projects :=
              [{ id := "a", title := "ta", description := "da",
                 people := some 1, status := ProjectStatus.Active },
               { id := "b", title := "tb", description := "db",
                 people := some 2, status := ProjectStatus.Active }],
            listeners := [1] }).1.projects, q.id = "b") ∧
    (∀ q ∈ relevantProjects ColType.active
        (moveProject "b" ProjectStatus.Finished
          { projects :=
              [{ id := "a", title := "ta", description := "da",
                 people := some 1, status := ProjectStatus.Active },
               { id := "b", title := "tb", description := "db",
                 people := some 2, status := ProjectStatus.Active }],
            listeners := [1] }).1.projects, q.id ≠ "b") := by
  have h := moveProject_changes_status
    { projects :=
        [{ id := "a", title := "ta", description := "da",
           people := some 1, status := ProjectStatus.Active },
         { id := "b", title := "tb", description := "db",
           people := some 2, status := ProjectStatus.Active }],
      listeners := [1] }
    { id := "b", title := "tb", description := "db",
      people := some 2, status := ProjectStatus.Active }
    "b" ProjectStatus.Finished (by decide) (by decide) rfl (by decide)
  exact ⟨h.2.2.1 ColType.finished rfl, h.2.2.2 ColType.active rfl⟩

theorem validate_title_iff (t : String) :
    validate { value := JsValue.str t, required := true } = true ↔
      (jsTrim t).length ≠ 0 := by
  simp [validate, toStringTrimNonempty]

theorem validate_description_iff (d : String) :
    validate { value := JsValue.str d, required := true,
               minLength := some 5 } = true ↔
      ((jsTrim d).length ≠ 0 ∧ (5 : ℚ) ≤ (d.length : ℚ)) := by
  simp [validate, toStringTrimNonempty]

theorem validate_people_iff (v : JsNum) :
    validate { value := JsValue.num v, required := true,
               min := some 1, max := some 5 } = true ↔
      ∃ q : ℚ, v = some q ∧ 1 ≤ q ∧ q ≤ 5 := by
  cases v with
  | none => simp [validate, toStringTrimNonempty, jsNumGe, jsNumLe]
  | some q => simp [validate, toStringTrimNonempty, jsNumGe, jsNumLe]

theorem gatherUserInput_some_inv (titleRaw descriptionRaw : String)
    (peopleNum : JsNum) (title desc : String) (people : JsNum)
    (h : gatherUserInput titleRaw descriptionRaw peopleNum =
      some (title, desc, people)) :
    title = jsTrim titleRaw ∧ desc = jsTrim descriptionRaw ∧
    people = peopleNum ∧
    validate { value := JsValue.str (jsTrim titleRaw), required := true } = true ∧
    validate { value := JsValue.str (jsTrim descriptionRaw), required := true,
               minLength := some 5 } = true ∧
    validate { value := JsValue.num peopleNum, required := true,
               min := some 1, max := some 5 } = true := by
  simp only [gatherUserInput] at h
  split at h
  · exact absurd h (by simp)
  · rename_i hcond
    simp only [Bool.or_eq_true, Bool.not_eq_true', not_or, Bool.not_eq_false] at hcond
    rcases hcond with ⟨⟨hv1, hv2⟩, hv3⟩
    injection h with h2
    obtain ⟨rfl, rfl, rfl⟩ :
        title = jsTrim titleRaw ∧ desc = jsTrim descriptionRaw ∧
          people = peopleNum := by
      have h3 := h2.symm
      exact ⟨congrArg Prod.fst h3,
        congrArg Prod.fst (congrArg Prod.snd h3),
        congrArg Prod.snd (congrArg Prod.snd h3)⟩
    exact ⟨rfl, rfl, rfl, hv1, hv2, hv3⟩

/-- Counterexample to C9 as stated: the boundary never checks that the
people count is an integer.  The number 5/2 — strictly between 2 and 3,
so no integer — passes validation, and the submit handler then calls the
registry with exactly that people count. -/
theorem boundary_accepts_non_integer_people :
    gatherUserInput "Task" "abcdef" (some (mkRat 5 2)) =
      some ("Task", "abcdef", some (mkRat 5 2)) ∧
    (submitForm "0.7" "Task" "abcdef" (some (mkRat 5 2)) initialState).1.projects =
      [{ id := "0.7", title := "Task", description := "abcdef",
         people := some (mkRat 5 2), status := ProjectStatus.Active }] ∧
    (2 : ℚ) < mkRat 5 2 ∧ mkRat 5 2 < 3 :=
  ⟨by decide, by decide, by decide, by decide⟩

/-- C9 (amended): for every form submission, the boundary calls
addProject only when validation passes, and then only with the trimmed
nonempty title, the trimmed description of length at least 5, and a
people count that is a number (not NaN) between 1 and 5 inclusive — not
necessarily an integer; when validation fails, the submission is aborted
(the alert branch), the registry is not called and the registry state is
unchanged. -/
theorem boundary_validation (newId titleRaw descriptionRaw : String)
    (peopleNum : JsNum) (s : ProjectState) :
    (gatherUserInput titleRaw descriptionRaw peopleNum = none →
      submitForm newId titleRaw descriptionRaw peopleNum s = (s, [])) ∧
    (∀ (title desc : String) (people : JsNum),
      gatherUserInput titleRaw descriptionRaw peopleNum =
        some (title, desc, people) →
      title = jsTrim titleRaw ∧ title ≠ "" ∧
      desc = jsTrim descriptionRaw ∧ 5 ≤ desc.length ∧
      (∃ q : ℚ, people = some q ∧ 1 ≤ q ∧ q ≤ 5) ∧
      (submitForm newId titleRaw descriptionRaw peopleNum s).1.projects =
        s.projects ++ [{ id := newId, title := title, description := desc,
                         people := people, status := ProjectStatus.Active }]) := by
  constructor
  · intro h
    simp [submitForm, h]
  · intro title desc people h
    obtain ⟨rfl, rfl, rfl, hv1, hv2, hv3⟩ :=
      gatherUserInput_some_inv titleRaw descriptionRaw peopleNum title desc people h
    have ht : (jsTrim (jsTrim titleRaw)).length ≠ 0 := (validate_title_iff _).mp hv1
    have hd := (validate_description_iff _).mp hv2
    have hp := (validate_people_iff _).mp hv3
    refine ⟨rfl, ?_, rfl, ?_, hp, ?_⟩
    · intro h0
      rw [h0] at ht
      exact ht (by decide)
    · exact_mod_cast hd.2
    · simp [submitForm, h, addProject]

/-- Witness for C9 (amended): an empty title aborts the submission and
leaves the registry untouched, while a valid submission appends exactly
the trimmed, validated project. -/
theorem boundary_validation_witness :
    submitForm "0.9" "" "short" (some 3) initialState = (initialState, []) ∧
    (submitForm "0.9" " Task " "  a fine description " (some 3)
        initialState).1.projects =
      [{ id := "0.9", title := "Task", description := "a fine description",
         people := some 3, status := ProjectStatus.Active }] := by
  constructor
  · exact (boundary_validation "0.9" "" "short" (some 3) initialState).1 (by decide)
  · have h := (boundary_validation "0.9" " Task " "  a fine description "
      (some 3) initialState).2 "Task" "a fine description" (some 3) (by decide)
    exact h.2.2.2.2.2.trans (by simp [initialState])
